import Mathlib

/-!
Shallow embedding of the arXiv paper denormalization loader and its query
layer (problem2: load_data.py, query_papers.py, api_server.py).
Python strings are modelled as lists of natural-number code points, so
string operations are explicit functions on List Nat.
-/

/-- Code points of a Lean string literal; used to transcribe the Python
string constants of the source files. -/
def pstr (s : String) : List Nat := s.data.map Char.toNat

/-- CPython str.lower restricted to one ASCII code point: maps the range
65-90 (A-Z) to 97-122 (a-z) and leaves every other code point unchanged. -/
def pyLowerChar (c : Nat) : Nat := if 65 ≤ c ∧ c ≤ 90 then c + 32 else c

/-- The text.lower() step of tokenize, code point by code point. -/
def pyLowerStr (s : List Nat) : List Nat := s.map pyLowerChar

/-- Membership in the regex character class [a-zA-Z]. -/
def isAsciiAlpha (c : Nat) : Bool :=
  (decide (97 ≤ c) && decide (c ≤ 122)) || (decide (65 ≤ c) && decide (c ≤ 90))

/-- A lowercase ASCII letter (a-z). -/
def isLowerAlpha (c : Nat) : Bool := decide (97 ≤ c) && decide (c ≤ 122)

/-- The fixed stop-word set of load_data.py. -/
def STOPWORDS : List (List Nat) :=
  [pstr "the", pstr "a", pstr "an", pstr "and", pstr "or", pstr "but",
   pstr "in", pstr "on", pstr "at", pstr "to", pstr "for",
   pstr "of", pstr "with", pstr "by", pstr "from", pstr "up", pstr "about",
   pstr "into", pstr "through", pstr "during",
   pstr "is", pstr "are", pstr "was", pstr "were", pstr "be", pstr "been",
   pstr "being", pstr "have", pstr "has", pstr "had",
   pstr "do", pstr "does", pstr "did", pstr "will", pstr "would",
   pstr "could", pstr "should", pstr "may", pstr "might",
   pstr "can", pstr "this", pstr "that", pstr "these", pstr "those",
   pstr "we", pstr "our", pstr "use", pstr "using",
   pstr "based", pstr "approach", pstr "method", pstr "paper",
   pstr "propose", pstr "proposed", pstr "show"]

/-- re.findall of the pattern [a-zA-Z]+ : the maximal runs of ASCII
alphabetic code points of a text, in order of appearance. -/
def alphaRuns : List Nat → List (List Nat)
  | [] => []
  | c :: cs =>
    if isAsciiAlpha c then
      (c :: cs.takeWhile isAsciiAlpha) :: alphaRuns (cs.dropWhile isAsciiAlpha)
    else
      alphaRuns cs
termination_by s => s.length
decreasing_by
  · simp only [List.length_cons]
    have h : (cs.dropWhile isAsciiAlpha).length ≤ cs.length :=
      (List.dropWhile_sublist isAsciiAlpha).length_le
    omega
  · simp

/-- The tokenize function of load_data.py: lowercase the text, take the
alphabetic runs, and drop stop words and runs of length at most 2. -/
def tokenize (text : List Nat) : List (List Nat) :=
  (alphaRuns (pyLowerStr text)).filter
    (fun t => !(STOPWORDS.contains t) && decide (2 < t.length))

/-- Number of occurrences of a token in a token list (the count that
collections.Counter associates to that key). -/
def tokCount (toks : List (List Nat)) (w : List Nat) : Nat :=
  toks.countP (fun t => decide (t = w))

/-- Index of the first occurrence of a token in the token stream; the
iteration order of the keys of a Counter built from toks lists keys in
increasing order of this index. -/
def firstIdx (toks : List (List Nat)) (w : List Nat) : Nat :=
  toks.findIdx (fun t => decide (t = w))

/-- The distinct tokens in order of first occurrence: the key iteration
order of a Counter built from toks. -/
def dedupFirst : List (List Nat) → List (List Nat)
  | [] => []
  | t :: ts => t :: dedupFirst (ts.filter (fun u => decide (u ≠ t)))
termination_by l => l.length
decreasing_by
  simp only [List.length_cons]
  have h := List.length_filter_le (fun u => decide (u ≠ t)) ts
  omega

/-- The comparison heapq.nlargest effectively sorts by: first the count,
descending, and among equal counts the position of first occurrence,
ascending (nlargest decorates each counter entry with its position, so
ties between equal counts keep the counter key order, which is the order
of first occurrence in the token stream). -/
def mostCommonLe (toks : List (List Nat)) (a b : List Nat) : Bool :=
  decide (tokCount toks b < tokCount toks a) ||
    (decide (tokCount toks a = tokCount toks b) &&
      decide (firstIdx toks a ≤ firstIdx toks b))

/-- Counter(toks).most_common(k): the distinct tokens sorted by
descending count, ties in first-seen order, truncated to k entries. -/
def most_common (toks : List (List Nat)) (k : Nat) : List (List Nat) :=
  ((dedupFirst toks).mergeSort (mostCommonLe toks)).take k

/-- top_k_keywords_from_abstract of load_data.py. -/
def top_k_keywords_from_abstract (abstract : List Nat) (k : Nat) :
    List (List Nat) :=
  most_common (tokenize abstract) k

/-- A valid keyword token: nonempty, all lowercase ASCII letters, length
greater than 2, and not a stop word. -/
def isKeywordToken (w : List Nat) : Bool :=
  decide (w ≠ []) && w.all isLowerAlpha && decide (2 < w.length) &&
    !(STOPWORDS.contains w)

/-- Strict lexicographic byte order on code-point strings: the order
DynamoDB applies to string sort keys (for ASCII data, UTF-8 byte order
and code-point order coincide). -/
def lexLt : List Nat → List Nat → Bool
  | [], [] => false
  | [], _ :: _ => true
  | _ :: _, [] => false
  | a :: as, b :: bs => decide (a < b) || (decide (a = b) && lexLt as bs)

/-- Nonstrict lexicographic byte order on code-point strings. -/
def lexLe (a b : List Nat) : Bool := lexLt a b || decide (a = b)

/-- Python truthiness of an optional string: None and the empty string
are falsy; every other string is truthy. -/
def pyTruthy : Option (List Nat) → Bool
  | none => false
  | some s => decide (s ≠ [])

/-- A source paper record (§3 of the spec, the loader input): the fields
read by the loader after the normalizations at lines 123-127 of
load_data.py (missing lists already replaced by empty ones, a missing
abstract by the empty string); published keeps its optional character
because the code tests its truthiness before use. -/
structure Paper where
  arxiv_id : List Nat
  title : List Nat
  authors : List (List Nat)
  abstract : List Nat
  categories : List (List Nat)
  published : Option (List Nat)
deriving DecidableEq, Repr

/-- A derived DynamoDB item. Fields that some item variants do not carry
are Option-valued: none models absence of the attribute on that item. -/
structure Item where
  pk : List Nat
  sk : List Nat
  gsi1pk : Option (List Nat)
  gsi1sk : Option (List Nat)
  gsi2pk : Option (List Nat)
  gsi2sk : Option (List Nat)
  gsi3pk : Option (List Nat)
  gsi3sk : Option (List Nat)
  arxiv_id : List Nat
  title : List Nat
  authors : Option (List (List Nat))
  abstract : Option (List Nat)
  categories : List (List Nat)
  keywords : Option (List (List Nat))
  published : Option (List Nat)
  item_type : List Nat
deriving DecidableEq, Repr

/-- The keywords the loader computes for one paper (line 130). -/
def paperKeywords (p : Paper) : List (List Nat) :=
  top_k_keywords_from_abstract p.abstract 10

/-- published_date at line 129: the first ten code points of the ISO
timestamp when it is truthy, and the sentinel 0000-00-00 otherwise. -/
def publishedDate (p : Paper) : List Nat :=
  if pyTruthy p.published then (p.published.getD []).take 10
  else pstr "0000-00-00"

/-- The detail item built at lines 132-145 of load_data.py. -/
def detailItem (p : Paper) : Item :=
  { pk := pstr "PAPER#" ++ p.arxiv_id
    sk := pstr "DETAIL"
    gsi1pk := none, gsi1sk := none, gsi2pk := none, gsi2sk := none
    gsi3pk := some (pstr "PAPER#" ++ p.arxiv_id)
    gsi3sk := some (pstr "DETAIL")
    arxiv_id := p.arxiv_id
    title := p.title
    authors := some p.authors
    abstract := some p.abstract
    categories := p.categories
    keywords := some (paperKeywords p)
    published := p.published
    item_type := pstr "PAPER_DETAIL" }

/-- The per-category item built at lines 149-163 of load_data.py. -/
def categoryItem (p : Paper) (cat : List Nat) : Item :=
  { pk := pstr "CATEGORY#" ++ cat
    sk := publishedDate p ++ pstr "#" ++ p.arxiv_id
    gsi1pk := none, gsi1sk := none, gsi2pk := none, gsi2sk := none
    gsi3pk := none, gsi3sk := none
    arxiv_id := p.arxiv_id
    title := p.title
    authors := some p.authors
    abstract := some p.abstract
    categories := p.categories
    keywords := some (paperKeywords p)
    published := p.published
    item_type := pstr "CATEGORY_ITEM" }

/-- The per-author item built at lines 165-178 of load_data.py. -/
def authorItem (p : Paper) (au : List Nat) : Item :=
  { pk := pstr "AUTHORITEM#" ++ au
    sk := publishedDate p ++ pstr "#" ++ p.arxiv_id
    gsi1pk := some (pstr "AUTHOR#" ++ au)
    gsi1sk := some (publishedDate p ++ pstr "#" ++ p.arxiv_id)
    gsi2pk := none, gsi2sk := none, gsi3pk := none, gsi3sk := none
    arxiv_id := p.arxiv_id
    title := p.title
    authors := none
    abstract := none
    categories := p.categories
    keywords := none
    published := p.published
    item_type := pstr "AUTHOR_ITEM" }

/-- The per-keyword item built at lines 185-197 of load_data.py. -/
def keywordItem (p : Paper) (kw : List Nat) : Item :=
  { pk := pstr "KEYWORDITEM#" ++ kw
    sk := publishedDate p ++ pstr "#" ++ p.arxiv_id
    gsi1pk := none, gsi1sk := none
    gsi2pk := some (pstr "KW#" ++ kw)
    gsi2sk := some (publishedDate p ++ pstr "#" ++ p.arxiv_id)
    gsi3pk := none, gsi3sk := none
    arxiv_id := p.arxiv_id
    title := p.title
    authors := none
    abstract := none
    categories := p.categories
    keywords := none
    published := p.published
    item_type := pstr "KEYWORD_ITEM" }

/-- The sequence of items one paper contributes to all_items, in the
order of the loop body at lines 121-197: the detail item, the category
items, the author items (one per entry of the authors list, with no
de-duplication), and the keyword items (de-duplicated by the seen_kw
set, which keeps first occurrences). -/
def projectPaper (p : Paper) : List Item :=
  detailItem p :: (p.categories.map (categoryItem p) ++
    p.authors.map (authorItem p) ++
    (dedupFirst (paperKeywords p)).map (keywordItem p))

/-- all_items accumulated over the whole corpus, in order. -/
def projectAll (papers : List Paper) : List Item :=
  (papers.map projectPaper).flatten

/-- The primary key pair of an item. -/
def itemKey (it : Item) : List Nat × List Nat := (it.pk, it.sk)

/-- Lookup of the item stored under a primary key pair. -/
def lookupK (s : List Item) (k : List Nat × List Nat) : Option Item :=
  s.find? (fun it => decide (itemKey it = k))

/-- Whether some stored item carries the given primary key pair. -/
def hasKey (s : List Item) (k : List Nat × List Nat) : Bool :=
  s.any (fun it => decide (itemKey it = k))

/-- One put_item through a batch_writer opened with
overwrite_by_pkeys=[PK, SK]: an item sharing the primary key pair is
replaced in place, otherwise the new item is appended. -/
def putItem (s : List Item) (it : Item) : List Item :=
  if hasKey s (itemKey it) then
    s.map (fun o => if itemKey o = itemKey it then it else o)
  else s ++ [it]

/-- put_batch of load_data.py: the items of one batch written in order. -/
def put_batch (s : List Item) (items : List Item) : List Item :=
  items.foldl putItem s

/-- The slices all_items[i:i+25] taken at lines 200-201. -/
def chunk25 : List Item → List (List Item)
  | [] => []
  | x :: xs => ((x :: xs).take 25) :: chunk25 ((x :: xs).drop 25)
termination_by l => l.length
decreasing_by
  simp only [List.length_drop, List.length_cons]
  omega

/-- The write loop at lines 200-201: put_batch applied to each 25-slice
of all_items in order. -/
def writeAllBatches (s : List Item) (items : List Item) : List Item :=
  (chunk25 items).foldl put_batch s

/-- One full run of the loader body over a corpus, starting from a given
store state. -/
def runLoader (s : List Item) (papers : List Paper) : List Item :=
  writeAllBatches s (projectAll papers)

/-- total_papers of the final summary. -/
def totalPapers (papers : List Paper) : Nat := papers.length

/-- total_items of the final summary: the sum of the per-variant counts,
which equals the number of projected items. -/
def totalItems (papers : List Paper) : Nat := (projectAll papers).length

/-- denorm_factor at line 204, with the Python conditional expression
guarding the zero-record case. -/
def denormFactor (papers : List Paper) : ℚ :=
  if totalPapers papers ≠ 0 then
    (totalItems papers : ℚ) / (totalPapers papers : ℚ)
  else 0

theorem pyLowerChar_alpha_lower (c : Nat)
    (h : isAsciiAlpha (pyLowerChar c) = true) :
    isLowerAlpha (pyLowerChar c) = true := by
  by_cases hc : 65 ≤ c ∧ c ≤ 90
  · simp only [pyLowerChar, if_pos hc, isAsciiAlpha, isLowerAlpha,
      Bool.or_eq_true, Bool.and_eq_true, decide_eq_true_eq] at h ⊢
    omega
  · simp only [pyLowerChar, if_neg hc, isAsciiAlpha, isLowerAlpha,
      Bool.or_eq_true, Bool.and_eq_true, decide_eq_true_eq] at h ⊢
    omega

theorem alphaRuns_chars :
    ∀ (s : List Nat), ∀ t ∈ alphaRuns s, ∀ c ∈ t,
      isAsciiAlpha c = true ∧ c ∈ s := by
  intro s
  induction s using alphaRuns.induct with
  | case1 => intro t ht; rw [alphaRuns] at ht; cases ht
  | case2 c cs h ih =>
    intro t ht
    rw [alphaRuns, if_pos h] at ht
    rcases List.mem_cons.mp ht with rfl | ht2
    · intro x hx
      rcases List.mem_cons.mp hx with rfl | hx2
      · exact ⟨h, List.mem_cons_self _ _⟩
      · exact ⟨List.mem_takeWhile_imp hx2,
          List.mem_cons_of_mem _ ((List.takeWhile_sublist _).subset hx2)⟩
    · intro x hx
      obtain ⟨ha, hm⟩ := ih t ht2 x hx
      exact ⟨ha, List.mem_cons_of_mem _ ((List.dropWhile_sublist _).subset hm)⟩
  | case3 c cs h ih =>
    intro t ht
    rw [alphaRuns, if_neg h] at ht
    intro x hx
    obtain ⟨ha, hm⟩ := ih t ht x hx
    exact ⟨ha, List.mem_cons_of_mem _ hm⟩

theorem tokenize_valid {text : List Nat} :
    ∀ t ∈ tokenize text, isKeywordToken t = true := by
  intro t ht
  rw [tokenize, List.mem_filter] at ht
  obtain ⟨hmem, hcond⟩ := ht
  have hchars := alphaRuns_chars _ t hmem
  simp only [Bool.and_eq_true, Bool.not_eq_true', decide_eq_true_eq] at hcond
  rw [isKeywordToken]
  simp only [Bool.and_eq_true, decide_eq_true_eq, Bool.not_eq_true',
    List.all_eq_true]
  refine ⟨⟨⟨?_, ?_⟩, hcond.2⟩, hcond.1⟩
  · intro hnil
    subst hnil
    simp at hcond
  · intro c hc
    obtain ⟨ha, hmem2⟩ := hchars c hc
    rw [pyLowerStr] at hmem2
    obtain ⟨c0, _, rfl⟩ := List.mem_map.mp hmem2
    exact pyLowerChar_alpha_lower c0 ha

theorem mem_dedupFirst :
    ∀ (l : List (List Nat)) (w : List Nat), w ∈ dedupFirst l ↔ w ∈ l := by
  intro l
  induction l using dedupFirst.induct with
  | case1 => intro w; rw [dedupFirst]
  | case2 t ts ih =>
    intro w
    rw [dedupFirst]
    constructor
    · intro h
      rcases List.mem_cons.mp h with rfl | h2
      · exact List.mem_cons_self _ _
      · have := (ih w).mp h2
        exact List.mem_cons_of_mem _ (List.mem_filter.mp this).1
    · intro h
      rcases List.mem_cons.mp h with rfl | h2
      · exact List.mem_cons_self _ _
      · by_cases hw : w = t
        · subst hw; exact List.mem_cons_self _ _
        · refine List.mem_cons_of_mem _ ((ih w).mpr ?_)
          exact List.mem_filter.mpr ⟨h2, by simpa using hw⟩

theorem dedupFirst_nodup : ∀ (l : List (List Nat)), (dedupFirst l).Nodup := by
  intro l
  induction l using dedupFirst.induct with
  | case1 => rw [dedupFirst]; exact List.nodup_nil
  | case2 t ts ih =>
    rw [dedupFirst]
    refine List.nodup_cons.mpr ⟨?_, ih⟩
    rw [mem_dedupFirst]
    simp

theorem mostCommonLe_trans (toks : List (List Nat)) :
    ∀ (a b c : List Nat), mostCommonLe toks a b → mostCommonLe toks b c →
      mostCommonLe toks a c := by
  intro a b c h1 h2
  simp only [mostCommonLe, Bool.or_eq_true, Bool.and_eq_true,
    decide_eq_true_eq] at h1 h2 ⊢
  omega

theorem mostCommonLe_total (toks : List (List Nat)) :
    ∀ (a b : List Nat), mostCommonLe toks a b || mostCommonLe toks b a := by
  intro a b
  simp only [mostCommonLe, Bool.or_eq_true, Bool.and_eq_true,
    decide_eq_true_eq]
  omega

/-- Ordering stated by C1: within the result, an earlier token is
strictly more frequent, or equally frequent and first seen no later in
the token stream of the text. -/
def descFreqThenFirstSeen (text a b : List Nat) : Prop :=
  tokCount (tokenize text) b < tokCount (tokenize text) a ∨
    (tokCount (tokenize text) a = tokCount (tokenize text) b ∧
      firstIdx (tokenize text) a ≤ firstIdx (tokenize text) b)

/-- C1: for every input text the keyword extractor returns a list of at
most 10 distinct lowercase alphabetic tokens of length greater than 2,
none in the stop-word set, ordered by descending frequency with ties
among equal frequencies broken by first-seen order; empty or missing
text (loaded as the empty string) yields the empty list. -/
theorem C1_keyword_extractor (text : List Nat) :
    (top_k_keywords_from_abstract text 10).length ≤ 10 ∧
    (top_k_keywords_from_abstract text 10).Nodup ∧
    (top_k_keywords_from_abstract text 10).all isKeywordToken = true ∧
    (top_k_keywords_from_abstract text 10).Pairwise
      (descFreqThenFirstSeen text) ∧
    top_k_keywords_from_abstract [] 10 = [] := by
  refine ⟨?_, ?_, ?_, ?_, ?_⟩
  · exact List.length_take_le _ _
  · refine List.Nodup.sublist (List.take_sublist _ _) ?_
    exact (List.mergeSort_perm _ _).nodup_iff.mpr (dedupFirst_nodup _)
  · rw [List.all_eq_true]
    intro w hw
    simp only [top_k_keywords_from_abstract, most_common] at hw
    have h1 := (List.take_sublist _ _).subset hw
    have h2 := List.mem_mergeSort.mp h1
    exact tokenize_valid _ ((mem_dedupFirst _ _).mp h2)
  · have hs := List.sorted_mergeSort
      (mostCommonLe_trans (tokenize text)) (mostCommonLe_total (tokenize text))
      (dedupFirst (tokenize text))
    have ht := List.Pairwise.sublist
      (List.take_sublist 10
        ((dedupFirst (tokenize text)).mergeSort (mostCommonLe (tokenize text))))
      hs
    refine ht.imp ?_
    intro a b h
    simp only [mostCommonLe, Bool.or_eq_true, Bool.and_eq_true,
      decide_eq_true_eq] at h
    exact h
  · simp [top_k_keywords_from_abstract, most_common, tokenize, pyLowerStr,
      alphaRuns, dedupFirst]

theorem lexLe_refl (a : List Nat) : lexLe a a = true := by
  simp [lexLe]

theorem lexLe_eq_not_lexLt : ∀ (a b : List Nat), lexLe a b = !lexLt b a := by
  intro a
  induction a with
  | nil =>
    intro b
    cases b with
    | nil => rfl
    | cons y ys => rfl
  | cons x xs ih =>
    intro b
    cases b with
    | nil => rfl
    | cons y ys =>
      rcases Nat.lt_trichotomy x y with hxy | rfl | hxy
      · have h1 : x ≠ y := by omega
        have h2 : ¬ y < x := by omega
        have h3 : y ≠ x := by omega
        simp [lexLe, lexLt, hxy, h1, h2, h3]
      · have ih2 := ih ys
        simp only [lexLe] at ih2
        simp [lexLe, lexLt, ih2]
      · have h1 : x ≠ y := by omega
        have h2 : ¬ x < y := by omega
        have h3 : y ≠ x := by omega
        simp [lexLe, lexLt, hxy, h1, h2, h3]

theorem lexLt_trans : ∀ (a b c : List Nat),
    lexLt a b = true → lexLt b c = true → lexLt a c = true := by
  intro a
  induction a with
  | nil =>
    intro b c h1 h2
    cases b with
    | nil => cases h1
    | cons y ys =>
      cases c with
      | nil => cases h2
      | cons z zs => rfl
  | cons x xs ih =>
    intro b c h1 h2
    cases b with
    | nil => cases h1
    | cons y ys =>
      cases c with
      | nil => cases h2
      | cons z zs =>
        simp only [lexLt, Bool.or_eq_true, Bool.and_eq_true,
          decide_eq_true_eq] at h1 h2 ⊢
        rcases h1 with h1 | ⟨rfl, h1⟩
        · rcases h2 with h2 | ⟨rfl, h2⟩
          · exact Or.inl (by omega)
          · exact Or.inl h1
        · rcases h2 with h2 | ⟨rfl, h2⟩
          · exact Or.inl h2
          · exact Or.inr ⟨rfl, ih ys zs h1 h2⟩

theorem lexLe_trans (a b c : List Nat)
    (h1 : lexLe a b = true) (h2 : lexLe b c = true) : lexLe a c = true := by
  simp only [lexLe, Bool.or_eq_true, decide_eq_true_eq] at h1 h2 ⊢
  rcases h1 with h1 | rfl
  · rcases h2 with h2 | rfl
    · exact Or.inl (lexLt_trans a b c h1 h2)
    · exact Or.inl h1
  · exact h2

theorem lexLe_total (a b : List Nat) : lexLe a b || lexLe b a := by
  rw [lexLe_eq_not_lexLt]
  by_cases h : lexLt b a = true
  · have := lexLe_eq_not_lexLt b a
    simp only [h, Bool.not_true, Bool.false_or]
    rw [this]
    by_cases h2 : lexLt a b = true
    · have : lexLt b b = true := lexLt_trans b a b h h2
      exfalso
      clear * - this
      induction b with
      | nil => cases this
      | cons x xs ih =>
        simp only [lexLt, Bool.or_eq_true, Bool.and_eq_true,
          decide_eq_true_eq] at this
        rcases this with h | ⟨_, h⟩
        · omega
        · exact ih h
    · simp [h2]
  · simp [h]

theorem lexLe_append_self : ∀ (a b : List Nat), lexLe a (a ++ b) = true := by
  intro a b
  induction a with
  | nil =>
    cases b with
    | nil => rfl
    | cons y ys => rfl
  | cons x xs ih =>
    simp only [lexLe, lexLt, List.cons_append, Bool.or_eq_true,
      Bool.and_eq_true, decide_eq_true_eq, List.cons.injEq] at ih ⊢
    rcases ih with h | h <;> tauto

theorem lexLt_append_of_lt : ∀ (a b u v : List Nat),
    a.length = b.length → lexLt a b = true →
    lexLt (a ++ u) (b ++ v) = true := by
  intro a
  induction a with
  | nil =>
    intro b u v hlen h
    cases b with
    | nil => cases h
    | cons y ys => simp at hlen
  | cons x xs ih =>
    intro b u v hlen h
    cases b with
    | nil => simp at hlen
    | cons y ys =>
      simp only [lexLt, Bool.or_eq_true, Bool.and_eq_true,
        decide_eq_true_eq] at h
      simp only [List.cons_append, lexLt, Bool.or_eq_true, Bool.and_eq_true,
        decide_eq_true_eq]
      rcases h with h | ⟨rfl, h⟩
      · exact Or.inl h
      · exact Or.inr ⟨rfl, ih ys u v (by simpa using hlen) h⟩

theorem lexLe_append_cancel : ∀ (p a b : List Nat),
    lexLe (p ++ a) (p ++ b) = lexLe a b := by
  intro p a b
  induction p with
  | nil => rfl
  | cons x xs ih =>
    have h1 : ¬ x < x := by omega
    simp only [List.cons_append, lexLe, lexLt, List.cons.injEq, h1,
      decide_eq_true_eq, Bool.decide_and, decide_True, Bool.true_and,
      decide_False, Bool.false_or]
    simp only [lexLe] at ih
    exact ih

/-- DynamoDB main-table query of one partition, ascending by sort key
(ScanIndexForward true). The model store is a list of items; a partition
is materialized as its items in ascending sort-key order. The paginated
while loop of the source accumulates every page, so the model returns
the whole partition selection at once. -/
def ddbQueryAsc (store : List Item) (pkv : List Nat) : List Item :=
  (store.filter (fun it => decide (it.pk = pkv))).mergeSort
    (fun a b => lexLe a.sk b.sk)

/-- DynamoDB main-table query of one partition, descending by sort key
(ScanIndexForward false). -/
def ddbQueryDesc (store : List Item) (pkv : List Nat) : List Item :=
  (store.filter (fun it => decide (it.pk = pkv))).mergeSort
    (fun a b => lexLe b.sk a.sk)

/-- query_recent_in_category of query_papers.py: one page of the
category partition, newest sort keys first, capped at limit items. -/
def query_recent_in_category (store : List Item) (category : List Nat)
    (limit : Nat) : List Item :=
  (ddbQueryDesc store (pstr "CATEGORY#" ++ category)).take limit

/-- query_papers_in_date_range of query_papers.py: the category
partition restricted to sort keys between start# and the high
sentinel bound, ascending, fully paginated. -/
def query_papers_in_date_range (store : List Item)
    (category start_date end_date : List Nat) : List Item :=
  (store.filter (fun it =>
      decide (it.pk = pstr "CATEGORY#" ++ category) &&
      lexLe (start_date ++ pstr "#") it.sk &&
      lexLe it.sk (end_date ++ pstr "#zzzzzzz"))).mergeSort
    (fun a b => lexLe a.sk b.sk)

/-- The AuthorIndex query of query_papers.py: every item whose GSI1
partition key matches, descending by GSI1 sort key, fully paginated. -/
def query_papers_by_author (store : List Item) (author_name : List Nat) :
    List Item :=
  (store.filter (fun it =>
      decide (it.gsi1pk = some (pstr "AUTHOR#" ++ author_name)))).mergeSort
    (fun a b => lexLe (b.gsi1sk.getD []) (a.gsi1sk.getD []))

/-- The PaperIdIndex selection backing get_paper_by_id: every item whose
GSI3 partition key matches, in index order. -/
def gsi3Items (store : List Item) (pkv : List Nat) : List Item :=
  (store.filter (fun it => decide (it.gsi3pk = some pkv))).mergeSort
    (fun a b => lexLe (a.gsi3sk.getD []) (b.gsi3sk.getD []))

/-- get_paper_by_id of query_papers.py: items[0] if items else None. -/
def get_paper_by_id (store : List Item) (arxiv_id : List Nat) :
    Option Item :=
  (gsi3Items store (pstr "PAPER#" ++ arxiv_id)).head?

/-- query_papers_by_keyword of query_papers.py: one page of the
KeywordIndex partition of the lower-cased keyword, descending by GSI2
sort key, capped at limit items. -/
def query_papers_by_keyword (store : List Item) (keyword : List Nat)
    (limit : Nat) : List Item :=
  ((store.filter (fun it =>
      decide (it.gsi2pk = some (pstr "KW#" ++ pyLowerStr keyword)))).mergeSort
    (fun a b => lexLe (b.gsi2sk.getD []) (a.gsi2sk.getD []))).take limit

/-- An id suffix that sorts at or below the high sentinel zzzzzzz: empty,
or beginning with a code point before 122 (z). Every real arxiv
identifier begins with a digit or a letter of an archive name, all of
which precede z. -/
def idBelowSentinel : List Nat → Bool
  | [] => true
  | b :: _ => decide (b < 122)

theorem sentinelAfterId (e id : List Nat) (h : idBelowSentinel id = true) :
    lexLe (e ++ pstr "#" ++ id) (e ++ pstr "#zzzzzzz") = true := by
  have he : pstr "#zzzzzzz" = pstr "#" ++ pstr "zzzzzzz" := by decide
  rw [he, ← List.append_assoc, List.append_assoc e, ← List.append_assoc e,
    lexLe_append_cancel]
  cases id with
  | nil => decide
  | cons b rest =>
    simp only [idBelowSentinel, decide_eq_true_eq] at h
    have hz : pstr "zzzzzzz" = 122 :: pstr "zzzzzz" := by decide
    rw [hz]
    simp [lexLe, lexLt, h]

/-- C3: the date-range query selects exactly the items of the category
partition whose sort key lies inclusively between start# and the high
sentinel bound end#zzzzzzz, returns them in ascending sort-key order
(fully accumulated, the pagination loop being invisible in the model),
includes any item keyed on the end date with an id below the sentinel,
and excludes any item keyed on a later date of the same length. -/
theorem C3_date_range_query (store : List Item) (category s e : List Nat)
    (hlen : s.length = e.length) (hse : lexLe s e = true) :
    (∀ it : Item, it ∈ query_papers_in_date_range store category s e ↔
      (it ∈ store ∧ it.pk = pstr "CATEGORY#" ++ category ∧
        lexLe (s ++ pstr "#") it.sk = true ∧
        lexLe it.sk (e ++ pstr "#zzzzzzz") = true)) ∧
    (query_papers_in_date_range store category s e).Pairwise
      (fun a b => lexLe a.sk b.sk = true) ∧
    (∀ it : Item, it ∈ store → it.pk = pstr "CATEGORY#" ++ category →
      ∀ id, idBelowSentinel id = true → it.sk = e ++ pstr "#" ++ id →
        it ∈ query_papers_in_date_range store category s e) ∧
    (∀ it : Item, ∀ d id : List Nat, d.length = e.length →
      lexLt e d = true → it.sk = d ++ pstr "#" ++ id →
        it ∉ query_papers_in_date_range store category s e) := by
  have hmem : ∀ it : Item, it ∈ query_papers_in_date_range store category s e ↔
      (it ∈ store ∧ it.pk = pstr "CATEGORY#" ++ category ∧
        lexLe (s ++ pstr "#") it.sk = true ∧
        lexLe it.sk (e ++ pstr "#zzzzzzz") = true) := by
    intro it
    rw [query_papers_in_date_range, List.mem_mergeSort, List.mem_filter]
    simp only [Bool.and_eq_true, decide_eq_true_eq]
    tauto
  refine ⟨hmem, ?_, ?_, ?_⟩
  · exact List.sorted_mergeSort
      (fun a b c hab hbc => lexLe_trans a.sk b.sk c.sk hab hbc)
      (fun a b => lexLe_total a.sk b.sk) _
  · intro it hst hpk id hid hsk
    refine (hmem it).mpr ⟨hst, hpk, ?_, ?_⟩
    · rw [hsk]
      simp only [lexLe, Bool.or_eq_true, decide_eq_true_eq] at hse
      rcases hse with hlt | rfl
      · have := lexLt_append_of_lt s e (pstr "#") (pstr "#" ++ id) hlen hlt
        rw [← List.append_assoc] at this
        simp only [lexLe, Bool.or_eq_true]
        exact Or.inl this
      · exact lexLe_append_self (s ++ pstr "#") id
    · rw [hsk]
      exact sentinelAfterId e id hid
  · intro it d id hdlen hed hsk hin
    obtain ⟨_, _, _, hup⟩ := (hmem it).mp hin
    rw [hsk] at hup
    have hgt := lexLt_append_of_lt e d (pstr "#zzzzzzz") (pstr "#" ++ id)
      hdlen.symm hed
    rw [← List.append_assoc] at hgt
    rw [lexLe_eq_not_lexLt, hgt] at hup
    cases hup

/-- The last item of a put sequence carrying a given primary key: the
value that survives after every overwrite of that key. -/
def lastPut : List Item → (List Nat × List Nat) → Option Item
  | [], _ => none
  | it :: its, k =>
    match lastPut its k with
    | some r => some r
    | none => if itemKey it = k then some it else none

theorem hasKey_eq_isSome (s : List Item) (k : List Nat × List Nat) :
    hasKey s k = (lookupK s k).isSome := by
  induction s with
  | nil => rfl
  | cons o os ih =>
    rw [hasKey, lookupK, List.any_cons]
    by_cases h : itemKey o = k
    · rw [List.find?_cons_of_pos _ (by simpa using h)]
      simp [h]
    · rw [List.find?_cons_of_neg _ (by simpa using h)]
      rw [hasKey, lookupK] at ih
      simp [h, ih]

theorem find?_key_map_replace (s : List Item) (it : Item)
    (k : List Nat × List Nat) (hne : k ≠ itemKey it) :
    (s.map (fun o => if itemKey o = itemKey it then it else o)).find?
        (fun o => decide (itemKey o = k)) =
      s.find? (fun o => decide (itemKey o = k)) := by
  induction s with
  | nil => rfl
  | cons o os ih =>
    rw [List.map_cons]
    by_cases ho : itemKey o = itemKey it
    · rw [if_pos ho]
      have h1 : ¬ itemKey it = k := fun h => hne h.symm
      have h2 : ¬ itemKey o = k := by rw [ho]; exact h1
      rw [List.find?_cons_of_neg _ (by simpa using h1),
        List.find?_cons_of_neg _ (by simpa using h2)]
      exact ih
    · rw [if_neg ho]
      by_cases hk : itemKey o = k
      · rw [List.find?_cons_of_pos _ (by simpa using hk),
          List.find?_cons_of_pos _ (by simpa using hk)]
      · rw [List.find?_cons_of_neg _ (by simpa using hk),
          List.find?_cons_of_neg _ (by simpa using hk)]
        exact ih

theorem find?_replace_self (s : List Item) (it : Item)
    (hpres : hasKey s (itemKey it) = true) :
    (s.map (fun o => if itemKey o = itemKey it then it else o)).find?
        (fun o => decide (itemKey o = itemKey it)) = some it := by
  induction s with
  | nil => cases hpres
  | cons o os ih =>
    rw [List.map_cons]
    by_cases ho : itemKey o = itemKey it
    · rw [if_pos ho]
      rw [List.find?_cons_of_pos _ (by simp)]
    · rw [if_neg ho]
      rw [List.find?_cons_of_neg _ (by simpa using ho)]
      apply ih
      rw [hasKey, List.any_cons] at hpres
      rw [hasKey]
      simpa [ho, List.any_eq_true] using hpres

theorem lookupK_putItem_self (s : List Item) (it : Item) :
    lookupK (putItem s it) (itemKey it) = some it := by
  rw [putItem]
  split
  · rename_i hpres
    exact find?_replace_self s it hpres
  · rename_i habs
    rw [lookupK, List.find?_append]
    have h1 : s.find? (fun o => decide (itemKey o = itemKey it)) = none := by
      rw [List.find?_eq_none]
      intro x hx
      simp only [decide_eq_true_eq]
      intro hk
      have : hasKey s (itemKey it) = true := by
        rw [hasKey, List.any_eq_true]
        exact ⟨x, hx, by simp [hk]⟩
      exact habs this
    rw [h1]
    simp

theorem lookupK_putItem_other (s : List Item) (it : Item)
    (k : List Nat × List Nat) (hne : k ≠ itemKey it) :
    lookupK (putItem s it) k = lookupK s k := by
  rw [putItem]
  split
  · exact find?_key_map_replace s it k hne
  · rw [lookupK, List.find?_append]
    have h1 : ¬ itemKey it = k := fun h => hne h.symm
    have h2 : [it].find? (fun o => decide (itemKey o = k)) = none := by
      simp [h1]
    rw [h2, Option.or_none, lookupK]

theorem lookupK_put_batch (items : List Item) (s : List Item)
    (k : List Nat × List Nat) :
    lookupK (put_batch s items) k =
      match lastPut items k with
      | some r => some r
      | none => lookupK s k := by
  induction items generalizing s with
  | nil => rfl
  | cons it its ih =>
    have hfold : put_batch s (it :: its) = put_batch (putItem s it) its := rfl
    rw [hfold, ih (putItem s it), lastPut]
    cases h : lastPut its k with
    | some r => rfl
    | none =>
      by_cases hk : itemKey it = k
      · rw [if_pos hk]
        subst hk
        exact lookupK_putItem_self s it
      · rw [if_neg hk]
        exact lookupK_putItem_other s it k (fun h2 => hk h2.symm)

theorem hasKey_putItem (s : List Item) (it : Item) (k : List Nat × List Nat) :
    hasKey (putItem s it) k =
      (hasKey s k || decide (k = itemKey it)) := by
  by_cases hk : k = itemKey it
  · subst hk
    rw [hasKey_eq_isSome, lookupK_putItem_self]
    simp [hasKey_eq_isSome]
  · rw [hasKey_eq_isSome, lookupK_putItem_other s it k hk,
      ← hasKey_eq_isSome]
    simp [hk]

theorem hasKey_put_batch (items : List Item) (s : List Item)
    (k : List Nat × List Nat) :
    hasKey (put_batch s items) k =
      (hasKey s k || items.any (fun it => decide (itemKey it = k))) := by
  induction items generalizing s with
  | nil => simp [put_batch]
  | cons it its ih =>
    have hfold : put_batch s (it :: its) = put_batch (putItem s it) its := rfl
    rw [hfold, ih (putItem s it), hasKey_putItem, List.any_cons]
    have : decide (k = itemKey it) = decide (itemKey it = k) := by
      simp [eq_comm]
    rw [this, Bool.or_assoc]

theorem length_putItem (s : List Item) (it : Item) :
    (putItem s it).length =
      if hasKey s (itemKey it) then s.length else s.length + 1 := by
  rw [putItem]
  split <;> simp

theorem length_put_batch_all_present (items : List Item) (s : List Item)
    (h : ∀ it ∈ items, hasKey s (itemKey it) = true) :
    (put_batch s items).length = s.length := by
  induction items generalizing s with
  | nil => rfl
  | cons it its ih =>
    have hfold : put_batch s (it :: its) = put_batch (putItem s it) its := rfl
    have h1 : hasKey s (itemKey it) = true := h it (List.mem_cons_self _ _)
    have h2 : (putItem s it).length = s.length := by
      rw [length_putItem, if_pos h1]
    rw [hfold, ih (putItem s it) ?_, h2]
    intro x hx
    rw [hasKey_putItem]
    simp [h x (List.mem_cons_of_mem _ hx)]

theorem mem_putItem (s : List Item) (it x : Item)
    (hx : x ∈ putItem s it) : x ∈ s ∨ x = it := by
  rw [putItem] at hx
  split at hx
  · obtain ⟨o, ho, hom⟩ := List.mem_map.mp hx
    by_cases h : itemKey o = itemKey it
    · rw [if_pos h] at hom
      exact Or.inr hom.symm
    · rw [if_neg h] at hom
      exact Or.inl (hom ▸ ho)
  · rcases List.mem_append.mp hx with h | h
    · exact Or.inl h
    · simp only [List.mem_singleton] at h
      exact Or.inr h

theorem mem_put_batch (items : List Item) (s : List Item) (x : Item)
    (hx : x ∈ put_batch s items) : x ∈ s ∨ x ∈ items := by
  induction items generalizing s with
  | nil => exact Or.inl hx
  | cons it its ih =>
    have hfold : put_batch s (it :: its) = put_batch (putItem s it) its := rfl
    rw [hfold] at hx
    rcases ih (putItem s it) hx with h | h
    · rcases mem_putItem s it x h with h2 | h2
      · exact Or.inl h2
      · exact Or.inr (h2 ▸ List.mem_cons_self _ _)
    · exact Or.inr (List.mem_cons_of_mem _ h)

/-- The primary key pairs currently stored, in store order. -/
def storeKeys (s : List Item) : List (List Nat × List Nat) :=
  s.map itemKey

theorem storeKeys_putItem_nodup (s : List Item) (it : Item)
    (h : (storeKeys s).Nodup) : (storeKeys (putItem s it)).Nodup := by
  rw [putItem]
  split
  · rename_i hpres
    have : storeKeys (s.map (fun o =>
        if itemKey o = itemKey it then it else o)) = storeKeys s := by
      rw [storeKeys, storeKeys, List.map_map]
      apply List.map_congr_left
      intro o _
      simp only [Function.comp_apply]
      split
      · rename_i heq
        exact heq.symm
      · rfl
    rw [this]
    exact h
  · rename_i habs
    simp only [storeKeys, List.map_append, List.nodup_append]
    refine ⟨h, List.nodup_singleton _, ?_⟩
    intro k hk
    simp only [List.map_cons, List.map_nil, List.mem_singleton]
    intro hke
    subst hke
    rw [List.mem_map] at hk
    obtain ⟨o, ho, hko⟩ := hk
    apply habs
    rw [hasKey, List.any_eq_true]
    exact ⟨o, ho, by simp [hko]⟩

theorem storeKeys_put_batch_nodup (items : List Item) (s : List Item)
    (h : (storeKeys s).Nodup) : (storeKeys (put_batch s items)).Nodup := by
  induction items generalizing s with
  | nil => exact h
  | cons it its ih =>
    exact ih (putItem s it) (storeKeys_putItem_nodup s it h)

theorem length_filter_key_le_one (s : List Item)
    (h : (storeKeys s).Nodup) (p : Item → Bool) (k : List Nat × List Nat)
    (hp : ∀ x ∈ s, p x = true → itemKey x = k) :
    (s.filter p).length ≤ 1 := by
  induction s with
  | nil => simp
  | cons o os ih =>
    rw [storeKeys, List.map_cons, List.nodup_cons] at h
    rw [List.filter_cons]
    split
    · rename_i hpo
      have hnil : os.filter p = [] := by
        rw [List.filter_eq_nil_iff]
        intro x hx hpx
        apply h.1
        rw [List.mem_map]
        refine ⟨x, hx, ?_⟩
        rw [hp x (List.mem_cons_of_mem _ hx) hpx,
          hp o (List.mem_cons_self _ _) hpo]
      rw [hnil]
      simp
    · exact ih h.2 (fun x hx => hp x (List.mem_cons_of_mem _ hx))

theorem chunk25_flatten : ∀ (l : List Item), (chunk25 l).flatten = l := by
  intro l
  induction l using chunk25.induct with
  | case1 => rw [chunk25]; rfl
  | case2 x xs ih =>
    rw [chunk25, List.flatten_cons, ih]
    exact List.take_append_drop 25 (x :: xs)

theorem chunk25_bounded :
    ∀ (l : List Item), ∀ b ∈ chunk25 l, b.length ≤ 25 := by
  intro l
  induction l using chunk25.induct with
  | case1 => intro b hb; rw [chunk25] at hb; cases hb
  | case2 x xs ih =>
    intro b hb
    rw [chunk25] at hb
    rcases List.mem_cons.mp hb with rfl | hb2
    · exact List.length_take_le _ _
    · exact ih b hb2

theorem writeAllBatches_eq (items : List Item) (s : List Item) :
    writeAllBatches s items = put_batch s items := by
  have hgen : ∀ (chunks : List (List Item)) (s : List Item),
      chunks.foldl put_batch s = put_batch s chunks.flatten := by
    intro chunks
    induction chunks with
    | nil => intro s; rfl
    | cons c cs ih =>
      intro s
      rw [List.foldl_cons, ih, List.flatten_cons]
      show put_batch (put_batch s c) cs.flatten = put_batch s (c ++ cs.flatten)
      rw [put_batch, put_batch, put_batch, List.foldl_append]
  rw [writeAllBatches, hgen, chunk25_flatten]

/-- C8: the write loop slices all_items into the 25-item batches of
lines 200-201, loses no item (the concatenation of the batches is the
original sequence), every batch respects the 25-item per-request limit,
and writing batch by batch stores exactly what one sequential write of
all items would store. -/
theorem C8_store_writer_batches (items : List Item) :
    (chunk25 items).flatten = items ∧
    (chunk25 items).all (fun b => decide (b.length ≤ 25)) = true ∧
    (∀ s : List Item, writeAllBatches s items = put_batch s items) := by
  refine ⟨chunk25_flatten items, ?_, fun s => writeAllBatches_eq items s⟩
  rw [List.all_eq_true]
  intro b hb
  simpa using chunk25_bounded items b hb

/-- C6: re-running the loader on the same corpus leaves the store of a
single run unchanged observably: lookup agrees on every primary key pair
and the stored item count agrees; and each single put overwrites the
item sharing its primary key pair rather than duplicating it. -/
theorem C6_loader_idempotent (papers : List Paper) :
    (∀ k, lookupK (runLoader (runLoader [] papers) papers) k =
      lookupK (runLoader [] papers) k) ∧
    (runLoader (runLoader [] papers) papers).length =
      (runLoader [] papers).length ∧
    (∀ (s : List Item) (it : Item),
      lookupK (putItem s it) (itemKey it) = some it) := by
  have hrun : ∀ s, runLoader s papers = put_batch s (projectAll papers) :=
    fun s => writeAllBatches_eq (projectAll papers) s
  refine ⟨?_, ?_, fun s it => lookupK_putItem_self s it⟩
  · intro k
    rw [hrun, hrun [], lookupK_put_batch, lookupK_put_batch]
    cases h : lastPut (projectAll papers) k with
    | some r => rfl
    | none => rfl
  · rw [hrun (runLoader [] papers)]
    apply length_put_batch_all_present
    intro it hit
    rw [hrun [], hasKey_put_batch]
    rw [Bool.or_eq_true, List.any_eq_true]
    exact Or.inr ⟨it, hit, by simp⟩

theorem mem_projectAll {papers : List Paper} {it : Item} :
    it ∈ projectAll papers ↔ ∃ p ∈ papers, it ∈ projectPaper p := by
  rw [projectAll, List.mem_flatten]
  constructor
  · rintro ⟨l, hl, hit⟩
    obtain ⟨p, hp, rfl⟩ := List.mem_map.mp hl
    exact ⟨p, hp, hit⟩
  · rintro ⟨p, hp, hit⟩
    exact ⟨projectPaper p, List.mem_map.mpr ⟨p, hp, rfl⟩, hit⟩

theorem mem_projectPaper_cases {p : Paper} {it : Item}
    (h : it ∈ projectPaper p) :
    it = detailItem p ∨ (∃ c ∈ p.categories, categoryItem p c = it) ∨
    (∃ a ∈ p.authors, authorItem p a = it) ∨
    (∃ k ∈ dedupFirst (paperKeywords p), keywordItem p k = it) := by
  rw [projectPaper, List.mem_cons] at h
  rcases h with h | h
  · exact Or.inl h
  · rw [List.mem_append, List.mem_append] at h
    rcases h with (h | h) | h
    · exact Or.inr (Or.inl (by simpa using List.mem_map.mp h))
    · exact Or.inr (Or.inr (Or.inl (by simpa using List.mem_map.mp h)))
    · exact Or.inr (Or.inr (Or.inr (by simpa using List.mem_map.mp h)))

theorem sk_ne_DETAIL (p : Paper) :
    publishedDate p ++ pstr "#" ++ p.arxiv_id ≠ pstr "DETAIL" := by
  intro h
  have h35 : (35 : Nat) ∈ publishedDate p ++ pstr "#" ++ p.arxiv_id := by
    refine List.mem_append.mpr (Or.inl ?_)
    refine List.mem_append.mpr (Or.inr ?_)
    decide
  rw [h] at h35
  have : (35 : Nat) ∉ pstr "DETAIL" := by decide
  exact this h35

theorem detail_of_gsi3pk {p : Paper} {it : Item} {v : List Nat}
    (h : it ∈ projectPaper p) (h3 : it.gsi3pk = some v) :
    it = detailItem p ∧ v = pstr "PAPER#" ++ p.arxiv_id := by
  rcases mem_projectPaper_cases h with hd | ⟨c, _, rfl⟩ | ⟨a, _, rfl⟩ |
    ⟨k, _, rfl⟩
  · refine ⟨hd, ?_⟩
    rw [hd] at h3
    simp only [detailItem] at h3
    exact (Option.some_inj.mp h3).symm
  · simp only [categoryItem] at h3
    cases h3
  · simp only [authorItem] at h3
    cases h3
  · simp only [keywordItem] at h3
    cases h3

theorem detail_of_sk_DETAIL {p : Paper} {it : Item}
    (h : it ∈ projectPaper p) (hsk : it.sk = pstr "DETAIL") :
    it = detailItem p := by
  rcases mem_projectPaper_cases h with hd | ⟨c, _, rfl⟩ | ⟨a, _, rfl⟩ |
    ⟨k, _, rfl⟩
  · exact hd
  · exact absurd hsk (sk_ne_DETAIL p)
  · exact absurd hsk (sk_ne_DETAIL p)
  · exact absurd hsk (sk_ne_DETAIL p)

/-- C4: against the store produced by the loader, the id lookup returns
at most one item; an item it returns is the detail item of a loaded
paper with that id, carrying the full payload and the PAPER_DETAIL type
tag, never a denormalized category, author or keyword row; an id never
loaded yields None, and a loaded id yields an item. -/
theorem C4_paper_by_id (papers : List Paper) (id : List Nat) :
    (gsi3Items (runLoader [] papers) (pstr "PAPER#" ++ id)).length ≤ 1 ∧
    (∀ it : Item, get_paper_by_id (runLoader [] papers) id = some it →
      it.item_type = pstr "PAPER_DETAIL" ∧ it.arxiv_id = id ∧
      ∃ p ∈ papers, it = detailItem p) ∧
    ((∀ p ∈ papers, p.arxiv_id ≠ id) →
      get_paper_by_id (runLoader [] papers) id = none) ∧
    ((∃ p ∈ papers, p.arxiv_id = id) →
      ∃ it : Item, get_paper_by_id (runLoader [] papers) id = some it) := by
  have hload : runLoader [] papers = put_batch [] (projectAll papers) :=
    writeAllBatches_eq (projectAll papers) []
  have hmemstore : ∀ it ∈ runLoader [] papers, ∃ p ∈ papers,
      it ∈ projectPaper p := by
    intro it hit
    rw [hload] at hit
    rcases mem_put_batch _ _ _ hit with h | h
    · cases h
    · exact mem_projectAll.mp h
  have hnodup : (storeKeys (runLoader [] papers)).Nodup := by
    rw [hload]
    exact storeKeys_put_batch_nodup _ [] List.nodup_nil
  have hmatch : ∀ it ∈ runLoader [] papers,
      it.gsi3pk = some (pstr "PAPER#" ++ id) →
      ∃ p ∈ papers, it = detailItem p ∧ p.arxiv_id = id := by
    intro it hit h3
    obtain ⟨p, hp, hproj⟩ := hmemstore it hit
    obtain ⟨hd, hv⟩ := detail_of_gsi3pk hproj h3
    exact ⟨p, hp, hd, (List.append_cancel_left hv).symm⟩
  refine ⟨?_, ?_, ?_, ?_⟩
  · rw [gsi3Items, List.length_mergeSort]
    refine length_filter_key_le_one _ hnodup _
      (pstr "PAPER#" ++ id, pstr "DETAIL") ?_
    intro x hx hpx
    simp only [decide_eq_true_eq] at hpx
    obtain ⟨p, _, hd, hid⟩ := hmatch x hx hpx
    rw [hd, itemKey]
    simp only [detailItem, hid]
  · intro it hsome
    rw [get_paper_by_id, List.head?_eq_some_iff] at hsome
    obtain ⟨ys, hys⟩ := hsome
    have hmem : it ∈ gsi3Items (runLoader [] papers) (pstr "PAPER#" ++ id) := by
      rw [hys]
      exact List.mem_cons_self _ _
    rw [gsi3Items, List.mem_mergeSort, List.mem_filter] at hmem
    obtain ⟨hit, h3⟩ := hmem
    simp only [decide_eq_true_eq] at h3
    obtain ⟨p, hp, hd, hid⟩ := hmatch it hit h3
    refine ⟨?_, ?_, p, hp, hd⟩
    · rw [hd]; rfl
    · rw [hd]
      simp only [detailItem, hid]
  · intro hnone
    rw [get_paper_by_id]
    have hfil : (runLoader [] papers).filter
        (fun it => decide (it.gsi3pk = some (pstr "PAPER#" ++ id))) = [] := by
      rw [List.filter_eq_nil_iff]
      intro x hx hpx
      simp only [decide_eq_true_eq] at hpx
      obtain ⟨p, hp, _, hid⟩ := hmatch x hx hpx
      exact hnone p hp hid
    rw [gsi3Items, hfil]
    simp
  · rintro ⟨p, hp, hid⟩
    have hkey : hasKey (runLoader [] papers)
        (pstr "PAPER#" ++ id, pstr "DETAIL") = true := by
      rw [hload, hasKey_put_batch, Bool.or_eq_true, List.any_eq_true]
      refine Or.inr ⟨detailItem p, ?_, ?_⟩
      · exact mem_projectAll.mpr ⟨p, hp, List.mem_cons_self _ _⟩
      · simp [itemKey, detailItem, hid]
    rw [hasKey_eq_isSome] at hkey
    obtain ⟨it, hit⟩ := Option.isSome_iff_exists.mp hkey
    have hmem : it ∈ runLoader [] papers :=
      List.mem_of_find?_eq_some hit
    have hkeyeq : itemKey it = (pstr "PAPER#" ++ id, pstr "DETAIL") := by
      have := List.find?_some hit
      simpa using this
    obtain ⟨q, hq, hproj⟩ := hmemstore it hmem
    have hsk : it.sk = pstr "DETAIL" := congrArg Prod.snd hkeyeq
    have hd := detail_of_sk_DETAIL hproj hsk
    have hpk : it.pk = pstr "PAPER#" ++ id := congrArg Prod.fst hkeyeq
    have hqid : q.arxiv_id = id := by
      rw [hd] at hpk
      simp only [detailItem] at hpk
      exact List.append_cancel_left hpk
    have h3 : it.gsi3pk = some (pstr "PAPER#" ++ id) := by
      rw [hd]
      simp only [detailItem, hqid]
    have hinfil : it ∈ (runLoader [] papers).filter
        (fun x => decide (x.gsi3pk = some (pstr "PAPER#" ++ id))) :=
      List.mem_filter.mpr ⟨hmem, by simp [h3]⟩
    have hne : gsi3Items (runLoader [] papers) (pstr "PAPER#" ++ id) ≠ [] := by
      intro hnil
      have hmm : it ∈ gsi3Items (runLoader [] papers) (pstr "PAPER#" ++ id) := by
        rw [gsi3Items, List.mem_mergeSort]
        exact hinfil
      rw [hnil] at hmm
      cases hmm
    cases hgi : gsi3Items (runLoader [] papers) (pstr "PAPER#" ++ id) with
    | nil => exact absurd hgi hne
    | cons y ys =>
      refine ⟨y, ?_⟩
      rw [get_paper_by_id, hgi]
      rfl

/-- C7: when the publication timestamp is missing (None, or empty, which
the truthiness test treats the same), the sentinel date 0000-00-00 is
the date segment of the sort key of every derived item that has one
(the detail item keeps its constant DETAIL marker), and projection still
yields its full complement of items instead of rejecting the record. -/
theorem C7_missing_published_sentinel (p : Paper)
    (h : pyTruthy p.published = false) :
    publishedDate p = pstr "0000-00-00" ∧
    (∀ it ∈ projectPaper p, it.sk = pstr "DETAIL" ∨
      it.sk = pstr "0000-00-00" ++ pstr "#" ++ p.arxiv_id) ∧
    (projectPaper p).length =
      1 + (p.categories.length + p.authors.length +
        (dedupFirst (paperKeywords p)).length) := by
  have hpd : publishedDate p = pstr "0000-00-00" := by
    simp [publishedDate, h]
  refine ⟨hpd, ?_, ?_⟩
  · intro it hit
    rcases mem_projectPaper_cases hit with hd | ⟨c, _, rfl⟩ | ⟨a, _, rfl⟩ |
      ⟨k, _, rfl⟩
    · rw [hd]
      exact Or.inl rfl
    · right
      simp [categoryItem, hpd]
    · right
      simp [authorItem, hpd]
    · right
      simp [keywordItem, hpd]
  · rw [projectPaper]
    simp [List.length_append]
    omega

/-- C5: the keyword query lower-cases the requested keyword before
building the KeywordIndex partition key, so any two casings of a word
query the identical partition and return identical results; and every
keyword partition the loader writes is KW# followed by a lowercase
token. -/
theorem C5_keyword_query_case_insensitive (store : List Item)
    (w1 w2 : List Nat) (limit : Nat) (h : pyLowerStr w1 = pyLowerStr w2) :
    query_papers_by_keyword store w1 limit =
      query_papers_by_keyword store w2 limit ∧
    (∀ (papers : List Paper) (it : Item) (v : List Nat),
      it ∈ runLoader [] papers → it.gsi2pk = some v →
      ∃ w, v = pstr "KW#" ++ w ∧ w.all isLowerAlpha = true) := by
  constructor
  · rw [query_papers_by_keyword, query_papers_by_keyword, h]
  · intro papers it v hit h2
    have hload : runLoader [] papers = put_batch [] (projectAll papers) :=
      writeAllBatches_eq (projectAll papers) []
    rw [hload] at hit
    rcases mem_put_batch _ _ _ hit with hx | hx
    · cases hx
    · obtain ⟨p, _, hproj⟩ := mem_projectAll.mp hx
      rcases mem_projectPaper_cases hproj with hd | ⟨c, _, rfl⟩ |
        ⟨a, _, rfl⟩ | ⟨k, hk, rfl⟩
      · rw [hd] at h2
        simp only [detailItem] at h2
        cases h2
      · simp only [categoryItem] at h2
        cases h2
      · simp only [authorItem] at h2
        cases h2
      · simp only [keywordItem] at h2
        refine ⟨k, (Option.some_inj.mp h2).symm, ?_⟩
        have hk2 : k ∈ paperKeywords p := (mem_dedupFirst _ _).mp hk
        rw [paperKeywords, top_k_keywords_from_abstract, most_common] at hk2
        have h1 := (List.take_sublist _ _).subset hk2
        have hv := tokenize_valid _ ((mem_dedupFirst _ _).mp
          (List.mem_mergeSort.mp h1))
        rw [isKeywordToken] at hv
        simp only [Bool.and_eq_true] at hv
        exact hv.1.1.2

/-- A source record whose authors list repeats the same name twice. -/
def paperDupAuthors : Paper :=
  { arxiv_id := pstr "2401.00001"
    title := pstr "t"
    authors := [pstr "Alice", pstr "Alice"]
    abstract := []
    categories := []
    published := none }

/-- C2 as stated fails on the code: the authors loop has no analogue of
the seen_kw de-duplication, so a paper whose authors list repeats a name
projects two identical AuthorItems for the one distinct (author, paper)
pair, although their number still equals the list length M. -/
theorem C2_counterexample :
    ((projectPaper paperDupAuthors).filter
      (fun it => decide (it.item_type = pstr "AUTHOR_ITEM"))).length = 2 ∧
    ¬ ((projectPaper paperDupAuthors).filter
      (fun it => decide (it.item_type = pstr "AUTHOR_ITEM"))).Nodup := by
  have hpk : paperKeywords paperDupAuthors = [] := by
    simp [paperKeywords, top_k_keywords_from_abstract, most_common,
      tokenize, pyLowerStr, alphaRuns, paperDupAuthors, dedupFirst]
  have hproj : projectPaper paperDupAuthors =
      [detailItem paperDupAuthors,
       authorItem paperDupAuthors (pstr "Alice"),
       authorItem paperDupAuthors (pstr "Alice")] := by
    rw [projectPaper, hpk]
    simp [paperDupAuthors, dedupFirst]
  rw [hproj]
  constructor
  · decide
  · decide

theorem authorItems_projectPaper (p : Paper) :
    (projectPaper p).filter
      (fun it => decide (it.item_type = pstr "AUTHOR_ITEM")) =
      p.authors.map (authorItem p) := by
  have hd : ¬ ((fun it => decide (it.item_type = pstr "AUTHOR_ITEM"))
      (detailItem p) = true) := by
    show ¬ (decide ((pstr "PAPER_DETAIL" : List Nat) =
      pstr "AUTHOR_ITEM") = true)
    decide
  rw [projectPaper, List.filter_cons, if_neg hd, List.filter_append,
    List.filter_append, List.filter_map, List.filter_map, List.filter_map]
  have hc : List.filter ((fun it => decide (it.item_type =
      pstr "AUTHOR_ITEM")) ∘ categoryItem p) p.categories = [] := by
    rw [List.filter_eq_nil_iff]
    intro c _
    show ¬ (decide ((pstr "CATEGORY_ITEM" : List Nat) =
      pstr "AUTHOR_ITEM") = true)
    decide
  have ha : List.filter ((fun it => decide (it.item_type =
      pstr "AUTHOR_ITEM")) ∘ authorItem p) p.authors = p.authors := by
    rw [List.filter_eq_self]
    intro a _
    show decide ((pstr "AUTHOR_ITEM" : List Nat) = pstr "AUTHOR_ITEM") = true
    decide
  have hk : List.filter ((fun it => decide (it.item_type =
      pstr "AUTHOR_ITEM")) ∘ keywordItem p)
      (dedupFirst (paperKeywords p)) = [] := by
    rw [List.filter_eq_nil_iff]
    intro k _
    show ¬ (decide ((pstr "KEYWORD_ITEM" : List Nat) =
      pstr "AUTHOR_ITEM") = true)
    decide
  rw [hc, ha, hk]
  simp

/-- C2 amended: the projector yields exactly one AuthorItem per entry of
the authors list, M items for M entries; those items are pairwise
distinct, at most one per distinct (author, paper) pair, whenever the
authors list itself has no duplicate entries (a duplicated entry yields
identical duplicate items at projection); and author names are used
verbatim in keys, so two differently-cased author names always yield
distinct AuthorItems. -/
theorem C2_amended (p : Paper) (hM : 1 ≤ p.authors.length) :
    ((projectPaper p).filter
      (fun it => decide (it.item_type = pstr "AUTHOR_ITEM"))).length =
      p.authors.length ∧
    (p.authors.Nodup →
      ((projectPaper p).filter
        (fun it => decide (it.item_type = pstr "AUTHOR_ITEM"))).Nodup) ∧
    (∀ a1 a2 : List Nat, a1 ≠ a2 → authorItem p a1 ≠ authorItem p a2) := by
  have hfil := authorItems_projectPaper p
  have hinj : Function.Injective (authorItem p) := by
    intro a1 a2 hEq
    have hpk := congrArg Item.pk hEq
    simp only [authorItem] at hpk
    exact List.append_cancel_left hpk
  refine ⟨?_, ?_, ?_⟩
  · rw [hfil, List.length_map]
  · intro hnd
    rw [hfil]
    exact hnd.map hinj
  · intro a1 a2 hne hEq
    exact hne (hinj hEq)

/-- C10: the loader run on an empty corpus projects no items, writes no
batches, and reports a denormalization factor of 0 through the explicit
zero-record guard rather than raising a division-by-zero error. -/
theorem C10_empty_corpus :
    totalPapers [] = 0 ∧ totalItems [] = 0 ∧ denormFactor [] = 0 ∧
    projectAll [] = [] ∧ chunk25 (projectAll []) = [] ∧
    runLoader [] [] = [] := by
  refine ⟨rfl, rfl, ?_, rfl, ?_, ?_⟩
  · rw [denormFactor]
    simp [totalPapers]
  · show chunk25 [] = []
    rw [chunk25]
  · rw [runLoader, writeAllBatches]
    show (chunk25 []).foldl put_batch [] = []
    rw [chunk25]
    rfl

/-- str.startswith: the first pre.length code points of s equal pre. -/
def listStartsWith (pre s : List Nat) : Bool :=
  decide (s.take pre.length = pre)

/-- One hexadecimal digit as urllib unquote accepts it. -/
def hexVal (c : Nat) : Option Nat :=
  if 48 ≤ c ∧ c ≤ 57 then some (c - 48)
  else if 65 ≤ c ∧ c ≤ 70 then some (c - 55)
  else if 97 ≤ c ∧ c ≤ 102 then some (c - 87)
  else none

/-- urllib.parse.unquote on code points: a percent escape of two hex
digits is decoded, and anything else, including an invalid escape, is
copied unchanged. -/
def unquote : List Nat → List Nat
  | [] => []
  | 37 :: h1 :: h2 :: rest =>
    match hexVal h1, hexVal h2 with
    | some a, some b => (16 * a + b) :: unquote rest
    | _, _ => 37 :: unquote (h1 :: h2 :: rest)
  | c :: rest => c :: unquote rest

/-- Value of a nonempty run of decimal digits, scanned left to right;
none as soon as a non-digit appears. -/
def digitsVal (acc : Nat) : List Nat → Option Nat
  | [] => some acc
  | d :: rest =>
    if 48 ≤ d ∧ d ≤ 57 then digitsVal (10 * acc + (d - 48)) rest else none

/-- int(s) on the strings a limit parameter can carry: an optional sign
followed by one or more decimal digits; every other string raises
ValueError, modelled as none (CPython additionally strips surrounding
whitespace and permits underscores between digits; such inputs decode to
the same numbers and do not affect which requests are malformed). -/
def pyInt : List Nat → Option Int
  | [] => none
  | 43 :: rest =>
    if rest = [] then none
    else (digitsVal 0 rest).map (fun n => (n : Int))
  | 45 :: rest =>
    if rest = [] then none
    else (digitsVal 0 rest).map (fun n => -(n : Int))
  | s => (digitsVal 0 s).map (fun n => (n : Int))

/-- A parsed GET request: the path component and the first value of each
query parameter the routes read (qs.get of parse_qs output). -/
structure Request where
  path : List Nat
  category : Option (List Nat)
  limit : Option (List Nat)
  start : Option (List Nat)
  endParam : Option (List Nat)
deriving DecidableEq, Repr

/-- The JSON bodies the handler sends, by shape: the error object and
the five success payloads. -/
inductive RespBody
  | errObj (reason : List Nat)
  | recentObj (category : List Nat) (papers : List Item) (count : Nat)
  | authorObj (author_name : List Nat) (papers : List Item) (count : Nat)
  | keywordObj (keyword : List Nat) (papers : List Item) (count : Nat)
  | searchObj (category start_date end_date : List Nat)
      (papers : List Item) (count : Nat)
  | paperObj (it : Item)
deriving DecidableEq, Repr

/-- The store as the handler sees it: the items, plus an optional
failure carrying the exception text that any query call would raise
(connectivity loss, throttling, and similar backend errors). -/
structure Backend where
  items : List Item
  fail : Option (List Nat)
deriving DecidableEq, Repr

/-- One table.query call under the try of do_GET: it either raises the
pending backend failure or computes from the stored items. -/
def callStore {α : Type} (be : Backend) (f : List Item → α) :
    Except (List Nat) α :=
  match be.fail with
  | some msg => Except.error msg
  | none => Except.ok (f be.items)

/-- do_GET of api_server.py on a parsed request: the route conditionals
in source order, the parameter checks with their Python truthiness, and
the surrounding try/except that answers any raised store failure with
500 and a constant body (the exception text reaches only the log line).
The result is the status code and the response body. -/
def do_GET (be : Backend) (req : Request) : Nat × RespBody :=
  if req.path = pstr "/papers/recent" then
    if pyTruthy req.category = false then
      (400, RespBody.errObj (pstr "missing category"))
    else
      match (match req.limit with
             | none => some (20 : Int)
             | some s => pyInt s) with
      | none => (400, RespBody.errObj (pstr "invalid limit"))
      | some lim =>
        match callStore be (fun items =>
            query_recent_in_category items (req.category.getD [])
              lim.toNat) with
        | Except.error _ => (500, RespBody.errObj (pstr "server error"))
        | Except.ok its =>
          (200, RespBody.recentObj (req.category.getD []) its its.length)
  else if listStartsWith (pstr "/papers/author/") req.path then
    let author_name :=
      unquote (req.path.drop (pstr "/papers/author/").length)
    if author_name = [] then
      (400, RespBody.errObj (pstr "missing author_name"))
    else
      match callStore be
          (fun items => query_papers_by_author items author_name) with
      | Except.error _ => (500, RespBody.errObj (pstr "server error"))
      | Except.ok its =>
        (200, RespBody.authorObj author_name its its.length)
  else if listStartsWith (pstr "/papers/keyword/") req.path then
    let keyword := unquote (req.path.drop (pstr "/papers/keyword/").length)
    match (match req.limit with
           | none => some (20 : Int)
           | some s => pyInt s) with
    | none => (400, RespBody.errObj (pstr "invalid limit"))
    | some lim =>
      if keyword = [] then
        (400, RespBody.errObj (pstr "missing keyword"))
      else
        match callStore be (fun items =>
            query_papers_by_keyword items keyword lim.toNat) with
        | Except.error _ => (500, RespBody.errObj (pstr "server error"))
        | Except.ok its =>
          (200, RespBody.keywordObj keyword its its.length)
  else if listStartsWith (pstr "/papers/search") req.path then
    if pyTruthy req.category = false ∨ pyTruthy req.start = false ∨
        pyTruthy req.endParam = false then
      (400, RespBody.errObj (pstr "missing category/start/end"))
    else
      match callStore be (fun items =>
          query_papers_in_date_range items (req.category.getD [])
            (req.start.getD []) (req.endParam.getD [])) with
      | Except.error _ => (500, RespBody.errObj (pstr "server error"))
      | Except.ok its =>
        (200, RespBody.searchObj (req.category.getD []) (req.start.getD [])
          (req.endParam.getD []) its its.length)
  else if listStartsWith (pstr "/papers/") req.path then
    let arxiv_id := req.path.drop (pstr "/papers/").length
    if arxiv_id = [] then
      (400, RespBody.errObj (pstr "missing arxiv_id"))
    else
      match callStore be
          (fun items => get_paper_by_id items (unquote arxiv_id)) with
      | Except.error _ => (500, RespBody.errObj (pstr "server error"))
      | Except.ok none => (404, RespBody.errObj (pstr "not found"))
      | Except.ok (some it) => (200, RespBody.paperObj it)
  else
    (404, RespBody.errObj (pstr "not found"))

theorem listStartsWith_append (pre rest : List Nat) :
    listStartsWith pre (pre ++ rest) = true := by
  simp [listStartsWith, List.take_left]

theorem startsWith_both_take (p1 p2 s : List Nat)
    (hlen : p2.length ≤ p1.length)
    (h1 : listStartsWith p1 s = true) (h2 : listStartsWith p2 s = true) :
    p1.take p2.length = p2 := by
  simp only [listStartsWith, decide_eq_true_eq] at h1 h2
  rw [← h1, List.take_take]
  rw [Nat.min_eq_left hlen]
  exact h2

theorem listStartsWith_mono (p1 p2 s : List Nat)
    (hlen : p2.length ≤ p1.length) (hp : p1.take p2.length = p2)
    (h : listStartsWith p1 s = true) : listStartsWith p2 s = true := by
  simp only [listStartsWith, decide_eq_true_eq] at *
  calc s.take p2.length
      = (s.take p1.length).take p2.length := by
        rw [List.take_take, Nat.min_eq_left hlen]
    _ = p1.take p2.length := by rw [h]
    _ = p2 := hp

/-- C9: for every GET request, a known route with a missing or malformed
required parameter is answered 400 with a reason object, identically for
every backend state including one whose every store call raises, so the
store is never consulted; a path outside all routes is answered 404; a
lookup of an id matching no stored item is answered 404 with the
not-found body; and a store failure inside a route is answered 500 with
a constant generic body that does not depend on the exception text. -/
theorem C9_read_api_errors :
    (∀ (be : Backend) (req : Request),
      req.path = pstr "/papers/recent" → pyTruthy req.category = false →
      do_GET be req = (400, RespBody.errObj (pstr "missing category"))) ∧
    (∀ (be : Backend) (req : Request) (s : List Nat),
      req.path = pstr "/papers/recent" → pyTruthy req.category = true →
      req.limit = some s → pyInt s = none →
      do_GET be req = (400, RespBody.errObj (pstr "invalid limit"))) ∧
    (∀ (be : Backend) (req : Request),
      req.path = pstr "/papers/author/" →
      do_GET be req = (400, RespBody.errObj (pstr "missing author_name"))) ∧
    (∀ (be : Backend) (req : Request) (s : List Nat),
      listStartsWith (pstr "/papers/keyword/") req.path = true →
      req.limit = some s → pyInt s = none →
      do_GET be req = (400, RespBody.errObj (pstr "invalid limit"))) ∧
    (∀ (be : Backend) (req : Request),
      req.path = pstr "/papers/keyword/" → req.limit = none →
      do_GET be req = (400, RespBody.errObj (pstr "missing keyword"))) ∧
    (∀ (be : Backend) (req : Request),
      listStartsWith (pstr "/papers/search") req.path = true →
      (pyTruthy req.category = false ∨ pyTruthy req.start = false ∨
        pyTruthy req.endParam = false) →
      do_GET be req =
        (400, RespBody.errObj (pstr "missing category/start/end"))) ∧
    (∀ (be : Backend) (req : Request),
      req.path = pstr "/papers/" →
      do_GET be req = (400, RespBody.errObj (pstr "missing arxiv_id"))) ∧
    (∀ (be : Backend) (req : Request),
      listStartsWith (pstr "/papers/") req.path = false →
      do_GET be req = (404, RespBody.errObj (pstr "not found"))) ∧
    (∀ (items : List Item) (req : Request) (id : List Nat),
      req.path = pstr "/papers/" ++ id → id ≠ [] →
      req.path ≠ pstr "/papers/recent" →
      listStartsWith (pstr "/papers/author/") req.path = false →
      listStartsWith (pstr "/papers/keyword/") req.path = false →
      listStartsWith (pstr "/papers/search") req.path = false →
      items.filter (fun it => decide (it.gsi3pk =
        some (pstr "PAPER#" ++ unquote id))) = [] →
      do_GET ⟨items, none⟩ req = (404, RespBody.errObj (pstr "not found"))) ∧
    (∀ (items : List Item) (req : Request) (msg c : List Nat),
      req.path = pstr "/papers/recent" → req.category = some c → c ≠ [] →
      req.limit = none →
      do_GET ⟨items, some msg⟩ req =
        (500, RespBody.errObj (pstr "server error"))) := by
  refine ⟨?_, ?_, ?_, ?_, ?_, ?_, ?_, ?_, ?_, ?_⟩
  · intro be req hpath hcat
    rw [do_GET, hpath, if_pos rfl, if_pos hcat]
  · intro be req s hpath hcat hlim hparse
    rw [do_GET, hpath, if_pos rfl, if_neg (by simp [hcat]), hlim]
    simp [hparse]
  · intro be req hpath
    rw [do_GET, hpath]
    rfl
  · intro be req s hsw hlim hparse
    have hnr : ¬(req.path = pstr "/papers/recent") := by
      intro h
      rw [h] at hsw
      exact absurd hsw (by decide)
    have hna : ¬(listStartsWith (pstr "/papers/author/") req.path = true) := by
      intro h
      have := startsWith_both_take (pstr "/papers/keyword/")
        (pstr "/papers/author/") req.path (by decide) hsw h
      exact absurd this (by decide)
    rw [do_GET, if_neg hnr, if_neg hna, if_pos hsw, hlim]
    simp [hparse]
  · intro be req hpath hlim
    rw [do_GET, hpath, hlim]
    rfl
  · intro be req hsw hparams
    have hnr : ¬(req.path = pstr "/papers/recent") := by
      intro h
      rw [h] at hsw
      exact absurd hsw (by decide)
    have hna : ¬(listStartsWith (pstr "/papers/author/") req.path = true) := by
      intro h
      have := startsWith_both_take (pstr "/papers/author/")
        (pstr "/papers/search") req.path (by decide) h hsw
      exact absurd this (by decide)
    have hnk : ¬(listStartsWith (pstr "/papers/keyword/") req.path = true) := by
      intro h
      have := startsWith_both_take (pstr "/papers/keyword/")
        (pstr "/papers/search") req.path (by decide) h hsw
      exact absurd this (by decide)
    rw [do_GET, if_neg hnr, if_neg hna, if_neg hnk, if_pos hsw,
      if_pos hparams]
  · intro be req hpath
    rw [do_GET, hpath]
    rfl
  · intro be req h
    have hb : ¬(listStartsWith (pstr "/papers/") req.path = true) := by
      simp [h]
    have hnr : ¬(req.path = pstr "/papers/recent") := by
      intro heq
      rw [heq] at h
      exact absurd h (by decide)
    have hna : ¬(listStartsWith (pstr "/papers/author/") req.path = true) := by
      intro hsw
      exact hb (listStartsWith_mono (pstr "/papers/author/")
        (pstr "/papers/") req.path (by decide) (by decide) hsw)
    have hnk : ¬(listStartsWith (pstr "/papers/keyword/") req.path = true) := by
      intro hsw
      exact hb (listStartsWith_mono (pstr "/papers/keyword/")
        (pstr "/papers/") req.path (by decide) (by decide) hsw)
    have hns : ¬(listStartsWith (pstr "/papers/search") req.path = true) := by
      intro hsw
      exact hb (listStartsWith_mono (pstr "/papers/search")
        (pstr "/papers/") req.path (by decide) (by decide) hsw)
    rw [do_GET, if_neg hnr, if_neg hna, if_neg hnk, if_neg hns, if_neg hb]
  · intro items req id hpath hid hnr hna hnk hns hfil
    have hsw : listStartsWith (pstr "/papers/") req.path = true := by
      rw [hpath]
      exact listStartsWith_append _ _
    have hdrop : req.path.drop (pstr "/papers/").length = id := by
      rw [hpath]
      exact List.drop_left _ _
    have hnone : get_paper_by_id items (unquote id) = none := by
      rw [get_paper_by_id, gsi3Items, hfil]
      simp
    rw [do_GET, if_neg hnr, if_neg (by simp [hna]), if_neg (by simp [hnk]),
      if_neg (by simp [hns]), if_pos hsw, hdrop]
    simp [hid, callStore, hnone]
  · intro items req msg c hpath hcat hc hlim
    rw [do_GET, hpath, if_pos rfl, if_neg (by simp [hcat, pyTruthy, hc]),
      hlim]
    simp [callStore]

/-- A category row keyed on the last day of January 2024. -/
def c3ItemJan : Item :=
  { pk := pstr "CATEGORY#cs.LG"
    sk := pstr "2024-01-31#2401.00001"
    gsi1pk := none, gsi1sk := none, gsi2pk := none, gsi2sk := none
    gsi3pk := none, gsi3sk := none
    arxiv_id := pstr "2401.00001"
    title := [], authors := none, abstract := none, categories := []
    keywords := none, published := none
    item_type := pstr "CATEGORY_ITEM" }

/-- A category row keyed on the first day of February 2024. -/
def c3ItemFeb : Item :=
  { pk := pstr "CATEGORY#cs.LG"
    sk := pstr "2024-02-01#2402.00002"
    gsi1pk := none, gsi1sk := none, gsi2pk := none, gsi2sk := none
    gsi3pk := none, gsi3sk := none
    arxiv_id := pstr "2402.00002"
    title := [], authors := none, abstract := none, categories := []
    keywords := none, published := none
    item_type := pstr "CATEGORY_ITEM" }

/-- A two-row store exercising the date-range boundary. -/
def c3Store : List Item := [c3ItemJan, c3ItemFeb]

/-- Witness for C3: the January query includes the paper published on
the end date and excludes the paper published the following day. -/
theorem C3_date_range_query_witness :
    c3ItemJan ∈ query_papers_in_date_range c3Store (pstr "cs.LG")
      (pstr "2024-01-01") (pstr "2024-01-31") ∧
    c3ItemFeb ∉ query_papers_in_date_range c3Store (pstr "cs.LG")
      (pstr "2024-01-01") (pstr "2024-01-31") := by
  have h := C3_date_range_query c3Store (pstr "cs.LG") (pstr "2024-01-01")
    (pstr "2024-01-31") (by decide) (by decide)
  exact ⟨h.2.2.1 c3ItemJan (by decide) (by decide) (pstr "2401.00001")
      (by decide) (by decide),
    h.2.2.2 c3ItemFeb (pstr "2024-02-01") (pstr "2402.00002") (by decide)
      (by decide) (by decide)⟩

/-- A record with two distinct authors. -/
def c2Paper : Paper :=
  { arxiv_id := pstr "2401.00002"
    title := []
    authors := [pstr "Alice", pstr "Bob"]
    abstract := []
    categories := []
    published := none }

/-- Witness for the amended C2: two distinct authors project two
pairwise distinct AuthorItems, and verbatim casing separates names. -/
theorem C2_amended_witness :
    ((projectPaper c2Paper).filter
      (fun it => decide (it.item_type = pstr "AUTHOR_ITEM"))).length = 2 ∧
    ((projectPaper c2Paper).filter
      (fun it => decide (it.item_type = pstr "AUTHOR_ITEM"))).Nodup ∧
    authorItem c2Paper (pstr "Alice") ≠ authorItem c2Paper (pstr "alice") := by
  have h := C2_amended c2Paper (by decide)
  refine ⟨?_, h.2.1 (by decide),
    h.2.2 (pstr "Alice") (pstr "alice") (by decide)⟩
  rw [h.1]
  decide

/-- A record for the id-lookup witness. -/
def c4Paper : Paper :=
  { arxiv_id := pstr "2401.00003"
    title := pstr "t"
    authors := [pstr "Alice"]
    abstract := []
    categories := [pstr "cs.LG"]
    published := some (pstr "2024-01-05T00:00:00Z") }

/-- Witness for C4: an id never loaded yields None and a loaded id
yields an item. -/
theorem C4_paper_by_id_witness :
    get_paper_by_id (runLoader [] [c4Paper]) (pstr "nope") = none ∧
    ∃ it : Item,
      get_paper_by_id (runLoader [] [c4Paper]) (pstr "2401.00003") =
        some it := by
  have h1 := C4_paper_by_id [c4Paper] (pstr "nope")
  have h2 := C4_paper_by_id [c4Paper] (pstr "2401.00003")
  exact ⟨h1.2.2.1 (by decide), h2.2.2.2 ⟨c4Paper, by decide, by decide⟩⟩

/-- Witness for C5: the two casings of Network give identical results. -/
theorem C5_keyword_query_case_insensitive_witness :
    query_papers_by_keyword [] (pstr "Network") 20 =
      query_papers_by_keyword [] (pstr "network") 20 :=
  (C5_keyword_query_case_insensitive [] (pstr "Network") (pstr "network")
    20 (by decide)).1

/-- A record without a publication timestamp. -/
def c7Paper : Paper :=
  { arxiv_id := pstr "2401.00004"
    title := []
    authors := [pstr "Alice"]
    abstract := []
    categories := [pstr "cs.LG"]
    published := none }

/-- Witness for C7: the category row of a record without a timestamp
carries the sentinel date in its sort key. -/
theorem C7_missing_published_sentinel_witness :
    publishedDate c7Paper = pstr "0000-00-00" ∧
    ((categoryItem c7Paper (pstr "cs.LG")).sk = pstr "DETAIL" ∨
      (categoryItem c7Paper (pstr "cs.LG")).sk =
        pstr "0000-00-00" ++ pstr "#" ++ c7Paper.arxiv_id) := by
  have h := C7_missing_published_sentinel c7Paper (by decide)
  have hmem : categoryItem c7Paper (pstr "cs.LG") ∈ projectPaper c7Paper := by
    rw [projectPaper]
    refine List.mem_cons_of_mem _ (List.mem_append.mpr (Or.inl
      (List.mem_append.mpr (Or.inl (List.mem_map.mpr
        ⟨pstr "cs.LG", by decide, rfl⟩)))))
  exact ⟨h.1, h.2.1 _ hmem⟩

/-- A backend whose every store call raises. -/
def c9FailBe : Backend := { items := [], fail := some (pstr "boom") }

/-- A request with the given path and parameters. -/
def c9Req (p : List Nat) (cat lim st en : Option (List Nat)) : Request :=
  { path := p, category := cat, limit := lim, start := st, endParam := en }

/-- Witness for C9: each error path of the handler at a concrete
request, the 400 responses produced even against a backend whose every
call raises. -/
theorem C9_read_api_errors_witness :
    do_GET c9FailBe (c9Req (pstr "/papers/recent") none none none none) =
      (400, RespBody.errObj (pstr "missing category")) ∧
    do_GET c9FailBe (c9Req (pstr "/papers/recent") (some (pstr "cs"))
        (some (pstr "abc")) none none) =
      (400, RespBody.errObj (pstr "invalid limit")) ∧
    do_GET c9FailBe (c9Req (pstr "/papers/author/") none none none none) =
      (400, RespBody.errObj (pstr "missing author_name")) ∧
    do_GET c9FailBe (c9Req (pstr "/papers/keyword/net") none
        (some (pstr "x")) none none) =
      (400, RespBody.errObj (pstr "invalid limit")) ∧
    do_GET c9FailBe (c9Req (pstr "/papers/keyword/") none none none none) =
      (400, RespBody.errObj (pstr "missing keyword")) ∧
    do_GET c9FailBe (c9Req (pstr "/papers/search") none none none none) =
      (400, RespBody.errObj (pstr "missing category/start/end")) ∧
    do_GET c9FailBe (c9Req (pstr "/papers/") none none none none) =
      (400, RespBody.errObj (pstr "missing arxiv_id")) ∧
    do_GET c9FailBe (c9Req (pstr "/foo") none none none none) =
      (404, RespBody.errObj (pstr "not found")) ∧
    do_GET ⟨[], none⟩ (c9Req (pstr "/papers/xyz") none none none none) =
      (404, RespBody.errObj (pstr "not found")) ∧
    do_GET ⟨[], some (pstr "boom")⟩ (c9Req (pstr "/papers/recent")
        (some (pstr "cs")) none none none) =
      (500, RespBody.errObj (pstr "server error")) := by
  obtain ⟨h1, h2, h3, h4, h5, h6, h7, h8, h9, h10⟩ := C9_read_api_errors
  refine ⟨h1 _ _ rfl (by decide), h2 _ _ (pstr "abc") rfl (by decide) rfl
      (by decide), h3 _ _ rfl, h4 _ _ (pstr "x") (by decide) rfl (by decide),
    h5 _ _ rfl rfl, h6 _ _ (by decide) (Or.inl (by decide)), h7 _ _ rfl,
    h8 _ _ (by decide), ?_, h10 [] _ (pstr "boom") (pstr "cs") rfl rfl
      (by decide) rfl⟩
  exact h9 [] _ (pstr "xyz") (by decide) (by decide) (by decide) (by decide)
    (by decide) (by decide) rfl
